import Mathlib

set_option maxRecDepth 100000

/-!
Verification of the MCPSpy filesystem session manager
(`pkg/fs/sessionmanager.go`).

The Go code demultiplexes raw filesystem read/write capture events into
per-(pid, file pointer, direction) sessions, accumulates bytes in each
session's buffer, extracts complete top-level JSON values with a streaming
decoder (Go's `encoding/json` decoder reading `json.RawMessage` values and
tracking `InputOffset`), and emits each value as an `FSJsonEvent` into a
bounded channel of capacity 100 via a non-blocking send.

The embedding below models bytes as lists of `Char` (one `Char` per byte),
the Go map as an association list, the bounded channel as a list with an
explicit capacity check (the `select`/`default` non-blocking send), and the
`encoding/json` value scanner as a fuelled recursive-descent scanner over
the JSON grammar.  All definitions are executable.
-/

/-- Bytes of a capture stream: one `Char` per byte of the original Go byte
slice. -/
abbrev Bytes := List Char

/-- Modelled from the spec (§6) and its uses in sessionmanager.go: the event
package is not among the provided sources.  Event types: raw FSRead/FSWrite
data events, and the FSJsonRead/FSJsonWrite events emitted by the session
manager. -/
inductive EventType where
  | fsRead
  | fsWrite
  | fsJsonRead
  | fsJsonWrite
deriving DecidableEq, Repr

/-- sessionKey from sessionmanager.go: uniquely identifies a filesystem
session by pid, file pointer and the originating event type (direction). -/
structure sessionKey where
  pid : Nat
  filePtr : Nat
  origEventType : EventType
deriving DecidableEq, Repr

/-- session from sessionmanager.go: tracks filesystem communication for a
single file descriptor.  `comm` models the `[16]uint8` command-name
snapshot as a list of byte values; `buf` is the accumulation buffer. -/
structure session where
  pid : Nat
  comm : List Nat
  filePtr : Nat
  buf : Bytes
deriving DecidableEq, Repr

/-- Modelled from the spec (§6): a raw capture event (`event.FSDataEvent`).
`buffer` holds exactly the first `captured_length` valid bytes of the
fixed-capacity raw buffer, i.e. what `e.Buffer()` returns; a captured
length of zero corresponds to `buffer = []`. -/
structure FSDataEvent where
  eventType : EventType
  pid : Nat
  comm : List Nat
  filePtr : Nat
  buffer : Bytes
deriving DecidableEq, Repr

/-- Modelled from the spec (§6): a completed JSON output event
(`event.FSJsonEvent`), carrying the event header fields plus the file
pointer and the payload bytes. -/
structure FSJsonEvent where
  eventType : EventType
  pid : Nat
  comm : List Nat
  filePtr : Nat
  payload : Bytes
deriving DecidableEq, Repr

/-- Errors returned by ProcessFSEvent, mirroring the two fmt.Errorf sites in
sessionmanager.go: the invalid-JSON-start-character framing error and the
channel-full drop error. -/
inductive FSError where
  | invalidStart (c : Char)
  | channelFull
deriving DecidableEq, Repr

/-- SessionManager state: the session map (Go map modelled as an
association list) and the buffered event channel (modelled as the list of
events currently queued, oldest first). -/
structure SessionManager where
  sessions : List (sessionKey × session)
  eventCh : List FSJsonEvent
deriving DecidableEq, Repr

/-- Capacity of the event channel: `make(chan event.Event, 100)`. -/
def chanCapacity : Nat := 100

/-- NewSessionManager: empty session map, empty channel. -/
def NewSessionManager : SessionManager := { sessions := [], eventCh := [] }

/-- Go map lookup `s.sessions[key]`. -/
def lookupSess : List (sessionKey × session) → sessionKey → Option session
  | [], _ => none
  | (k, s) :: rest, key => if k = key then some s else lookupSess rest key

/-- Go map insert `s.sessions[key] = sess` (replaces any existing entry). -/
def insertSess : List (sessionKey × session) → sessionKey → session → List (sessionKey × session)
  | [], key, s => [(key, s)]
  | (k, v) :: rest, key, s =>
    if k = key then (key, s) :: rest else (k, v) :: insertSess rest key s

/-- Go map `delete(s.sessions, key)`. -/
def deleteSess : List (sessionKey × session) → sessionKey → List (sessionKey × session)
  | [], _ => []
  | (k, v) :: rest, key =>
    if k = key then deleteSess rest key else (k, v) :: deleteSess rest key

/-- The whitespace set trimmed by Go's bytes.TrimSpace on ASCII bytes
(asciiSpace: tab, newline, vertical tab, form feed, carriage return,
space). -/
def isGoSpace (c : Char) : Bool :=
  c = ' ' || c = '\t' || c = '\n' || c = '\x0b' || c = '\x0c' || c = '\r'

/-- bytes.TrimSpace on a byte-level view: strip leading and trailing ASCII
space bytes. -/
def trimSpace (s : Bytes) : Bytes :=
  ((s.dropWhile isGoSpace).reverse.dropWhile isGoSpace).reverse

/-- The whitespace set skipped by the encoding/json scanner between tokens
(space, tab, carriage return, newline). -/
def isJsonWS (c : Char) : Bool :=
  c = ' ' || c = '\t' || c = '\r' || c = '\n'

/-- ASCII decimal digit test, as used by the encoding/json number scanner. -/
def isDigit (c : Char) : Bool := '0' ≤ c && c ≤ '9'

/-- ASCII hexadecimal digit test, for \uXXXX string escapes. -/
def isHexDigit (c : Char) : Bool :=
  isDigit c || ('a' ≤ c && c ≤ 'f') || ('A' ≤ c && c ≤ 'F')

/-- Number of leading decimal digits. -/
def digitsLen (s : Bytes) : Nat := (s.takeWhile isDigit).length

/-- Scanner for the remainder of a JSON string literal, positioned just
after the opening quote.  Returns the number of bytes up to and including
the closing quote, or `none` if the string is incomplete or malformed
(control byte, bad escape, bad \u escape), as in the encoding/json
scanner's string states. -/
def scanStringRest : Bytes → Option Nat
  | [] => none
  | c :: rest =>
    if c = '"' then some 1
    else if c = '\\' then
      match rest with
      | [] => none
      | e :: rest2 =>
        if e = '"' || e = '\\' || e = '/' || e = 'b' || e = 'f' ||
            e = 'n' || e = 'r' || e = 't' then
          match scanStringRest rest2 with
          | some n => some (n + 2)
          | none => none
        else if e = 'u' then
          match rest2 with
          | h1 :: h2 :: h3 :: h4 :: rest6 =>
            if isHexDigit h1 && isHexDigit h2 && isHexDigit h3 && isHexDigit h4 then
              match scanStringRest rest6 with
              | some n => some (n + 6)
              | none => none
            else none
          | _ => none
        else none
    else if c.toNat < 32 then none
    else
      match scanStringRest rest with
      | some n => some (n + 1)
      | none => none

/-- Integer part of a JSON number: `0`, or a nonzero digit followed by more
digits (a leading zero is a complete integer part by itself, as in the Go
scanner's state1/state0 handling). -/
def scanIntPart : Bytes → Option Nat
  | [] => none
  | c :: rest =>
    if c = '0' then some 1
    else if isDigit c then some (1 + digitsLen rest)
    else none

/-- Optional fraction part: a dot must be followed by at least one digit. -/
def scanFracPart : Bytes → Option Nat
  | '.' :: rest => if digitsLen rest = 0 then none else some (1 + digitsLen rest)
  | _ => some 0

/-- Optional exponent part: e/E, optional sign, at least one digit. -/
def scanExpPart : Bytes → Option Nat
  | [] => some 0
  | c :: rest =>
    if c = 'e' || c = 'E' then
      match rest with
      | [] => none
      | s1 :: r1 =>
        if s1 = '+' || s1 = '-' then
          if digitsLen r1 = 0 then none else some (2 + digitsLen r1)
        else
          if digitsLen rest = 0 then none else some (1 + digitsLen rest)
    else some 0

/-- Length of the JSON number at the head of the input (sign, integer,
fraction, exponent), or `none` if no valid number starts here.  The number
ends at the first byte that cannot extend it, matching the scanner's
number states. -/
def scanNumber (s : Bytes) : Option Nat :=
  let p := match s with
    | '-' :: rest => (1, rest)
    | _ => (0, s)
  match scanIntPart p.2 with
  | none => none
  | some i =>
    match scanFracPart (p.2.drop i) with
    | none => none
    | some f =>
      match scanExpPart (p.2.drop (i + f)) with
      | none => none
      | some ex => some (p.1 + i + f + ex)

/-- Does `lit` occur at the head of `s`? -/
def startsWithLit : Bytes → Bytes → Bool
  | _, [] => true
  | [], _ :: _ => false
  | c :: s, l :: ls => c = l && startsWithLit s ls

mutual

/-- Length of one complete top-level JSON value at the head of `s`, or
`none` when the input is an incomplete value or malformed — exactly the
cases in which a `json.Decoder.Decode` call into a `json.RawMessage`
returns a non-nil error and tryEmitJsonEvent stops its loop.  `fuel` bounds
the recursion; callers supply fuel that is large relative to the input
length so that the bound is never the reason for `none`. -/
def scanValue : Nat → Bytes → Option Nat
  | 0, _ => none
  | fuel + 1, s =>
    match s with
    | [] => none
    | c :: rest =>
      if c = '{' then
        match scanObjectRest fuel rest with
        | some n => some (n + 1)
        | none => none
      else if c = '[' then
        match scanArrayRest fuel rest with
        | some n => some (n + 1)
        | none => none
      else if c = '"' then
        match scanStringRest rest with
        | some n => some (n + 1)
        | none => none
      else if c = '-' || isDigit c then scanNumber s
      else if startsWithLit s ['t', 'r', 'u', 'e'] then some 4
      else if startsWithLit s ['f', 'a', 'l', 's', 'e'] then some 5
      else if startsWithLit s ['n', 'u', 'l', 'l'] then some 4
      else none

/-- Remainder of a JSON object after the opening brace: optional
whitespace, then either the closing brace or a member list. -/
def scanObjectRest : Nat → Bytes → Option Nat
  | 0, _ => none
  | fuel + 1, s =>
    let w := (s.takeWhile isJsonWS).length
    match s.drop w with
    | '}' :: _ => some (w + 1)
    | s1 =>
      match scanMembers fuel s1 with
      | some n => some (w + n)
      | none => none

/-- One or more `"key": value` members separated by commas, up to and
including the closing brace. -/
def scanMembers : Nat → Bytes → Option Nat
  | 0, _ => none
  | fuel + 1, s =>
    match s with
    | '"' :: rest =>
      match scanStringRest rest with
      | none => none
      | some k =>
        let keyLen := k + 1
        let s1 := s.drop keyLen
        let w1 := (s1.takeWhile isJsonWS).length
        match s1.drop w1 with
        | ':' :: rest2 =>
          let w2 := (rest2.takeWhile isJsonWS).length
          match scanValue fuel (rest2.drop w2) with
          | none => none
          | some v =>
            let s4 := (rest2.drop w2).drop v
            let w3 := (s4.takeWhile isJsonWS).length
            match s4.drop w3 with
            | ',' :: rest3 =>
              let w4 := (rest3.takeWhile isJsonWS).length
              match scanMembers fuel (rest3.drop w4) with
              | some m => some (keyLen + w1 + 1 + w2 + v + w3 + 1 + w4 + m)
              | none => none
            | '}' :: _ => some (keyLen + w1 + 1 + w2 + v + w3 + 1)
            | _ => none
        | _ => none
    | _ => none

/-- Remainder of a JSON array after the opening bracket: optional
whitespace, then either the closing bracket or an element list. -/
def scanArrayRest : Nat → Bytes → Option Nat
  | 0, _ => none
  | fuel + 1, s =>
    let w := (s.takeWhile isJsonWS).length
    match s.drop w with
    | ']' :: _ => some (w + 1)
    | s1 =>
      match scanElems fuel s1 with
      | some n => some (w + n)
      | none => none

/-- One or more array elements separated by commas, up to and including the
closing bracket. -/
def scanElems : Nat → Bytes → Option Nat
  | 0, _ => none
  | fuel + 1, s =>
    match scanValue fuel s with
    | none => none
    | some v =>
      let s1 := s.drop v
      let w1 := (s1.takeWhile isJsonWS).length
      match s1.drop w1 with
      | ',' :: rest =>
        let w2 := (rest.takeWhile isJsonWS).length
        match scanElems fuel (rest.drop w2) with
        | some m => some (v + w1 + 1 + w2 + m)
        | none => none
      | ']' :: _ => some (v + w1 + 1)
      | _ => none

end

/-- One `decoder.Decode(&jsonData)` step on the unread input `s`: skip
inter-value whitespace, scan one complete value.  Returns the raw bytes of
the value (what lands in the `json.RawMessage`) and the number of bytes of
`s` consumed up to the end of the value (the advance of
`decoder.InputOffset()`), or `none` when Decode returns an error (end of
input, incomplete value, or syntax error — all treated alike by
tryEmitJsonEvent's loop). -/
def decodeOne (s : Bytes) : Option (Bytes × Nat) :=
  let w := (s.takeWhile isJsonWS).length
  let rest := s.drop w
  match scanValue (4 * rest.length + 4) rest with
  | none => none
  | some n => some (rest.take n, w + n)

/-- Builds the FSJsonEvent emitted by emitJsonEvent: read-direction keys
map to FSJsonRead, write-direction keys to FSJsonWrite; pid, comm and file
pointer are taken from the session. -/
def mkJsonEvent (sess : session) (key : sessionKey) (payload : Bytes) : FSJsonEvent :=
  { eventType :=
      if key.origEventType = EventType.fsWrite then EventType.fsJsonWrite
      else EventType.fsJsonRead
    pid := sess.pid
    comm := sess.comm
    filePtr := sess.filePtr
    payload := payload }

/-- emitJsonEvent from sessionmanager.go: non-blocking send
(`select`/`default`) into the capacity-100 channel; when the channel is
full the event is dropped and the channel-full error is returned. -/
def emitJsonEvent (st : SessionManager) (sess : session) (key : sessionKey)
    (payload : Bytes) : SessionManager × Option FSError :=
  if st.eventCh.length < chanCapacity then
    ({ st with eventCh := st.eventCh ++ [mkJsonEvent sess key payload] }, none)
  else
    (st, some FSError.channelFull)

/-- The decode-and-emit loop of tryEmitJsonEvent.  `pos` is the decoder's
current input offset into `bufData`, `lastGood` is lastGoodPosition.
Returns the state after all sends, the final lastGoodPosition, and the
error of a failed emit (which in Go aborts tryEmitJsonEvent before the
buffer update).  `fuel` bounds the iteration count; tryEmitJsonEvent
supplies `bufData.length + 1`, enough for one iteration per decoded value
(each value consumes at least one byte) plus the final failing Decode. -/
def emitLoop : Nat → SessionManager → session → sessionKey → Bytes → Nat → Nat →
    SessionManager × Nat × Option FSError
  | 0, st, _, _, _, _, lastGood => (st, lastGood, none)
  | fuel + 1, st, sess, key, bufData, pos, lastGood =>
    match decodeOne (bufData.drop pos) with
    | none => (st, lastGood, none)
    | some (v, consumed) =>
      if trimSpace v = [] then
        emitLoop fuel st sess key bufData (pos + consumed) lastGood
      else
        match emitJsonEvent st sess key v with
        | (st1, some e) => (st1, lastGood, some e)
        | (st1, none) => emitLoop fuel st1 sess key bufData (pos + consumed) (pos + consumed)

/-- Replaces the session stored at `key` with `sess` carrying buffer `b`
(the effect of mutating `sess.buf` through the map's pointer). -/
def setBuf (st : SessionManager) (key : sessionKey) (sess : session) (b : Bytes) :
    SessionManager :=
  { st with sessions := insertSess st.sessions key { sess with buf := b } }

/-- tryEmitJsonEvent from sessionmanager.go: trim the accumulated buffer;
an empty result resets the buffer; a first byte other than brace or
bracket is the framing error; otherwise run the decode loop and, unless an
emit failed, keep only the bytes after lastGoodPosition. -/
def tryEmitJsonEvent (st : SessionManager) (sess : session) (key : sessionKey) :
    SessionManager × Option FSError :=
  let bufData := trimSpace sess.buf
  match bufData.head? with
  | none => (setBuf st key sess [], none)
  | some c =>
    if c = '{' || c = '[' then
      match emitLoop (bufData.length + 1) st sess key bufData 0 0 with
      | (st1, _, some e) => (st1, some e)
      | (st1, lastGood, none) =>
        if 0 < lastGood then (setBuf st1 key sess (bufData.drop lastGood), none)
        else (st1, none)
    else
      (st, some (FSError.invalidStart c))

/-- The session key built by ProcessFSEvent for an incoming event. -/
def eventKey (e : FSDataEvent) : sessionKey :=
  { pid := e.pid, filePtr := e.filePtr, origEventType := e.eventType }

/-- The session ProcessFSEvent operates on before the append: the existing
session for the key, or a fresh one built from the event (with an empty
buffer). -/
def sessBefore (st : SessionManager) (e : FSDataEvent) : session :=
  match lookupSess st.sessions (eventKey e) with
  | some s => s
  | none => { pid := e.pid, comm := e.comm, filePtr := e.filePtr, buf := [] }

/-- The session after appending the event's captured bytes
(`sess.buf.Write(e.Buffer())`; a bytes.Buffer write always succeeds, so the
append has no failure path). -/
def sessAfterAppend (st : SessionManager) (e : FSDataEvent) : session :=
  { sessBefore st e with buf := (sessBefore st e).buf ++ e.buffer }

/-- ProcessFSEvent from sessionmanager.go: build the key, get or create the
session, append the captured bytes, and run tryEmitJsonEvent on the
accumulated buffer. -/
def ProcessFSEvent (st : SessionManager) (e : FSDataEvent) : SessionManager × Option FSError :=
  let key := eventKey e
  let sess1 := sessAfterAppend st e
  let st1 : SessionManager := { st with sessions := insertSess st.sessions key sess1 }
  tryEmitJsonEvent st1 sess1 key

/-- CleanupSession from sessionmanager.go: delete both the read- and the
write-direction sessions for the pid/file-pointer pair. -/
def CleanupSession (st : SessionManager) (pid : Nat) (filePtr : Nat) : SessionManager :=
  let keyRead : sessionKey := { pid := pid, filePtr := filePtr, origEventType := EventType.fsRead }
  let keyWrite : sessionKey := { pid := pid, filePtr := filePtr, origEventType := EventType.fsWrite }
  { st with sessions := deleteSess (deleteSess st.sessions keyRead) keyWrite }

/-- Feeds a list of events through ProcessFSEvent in order, keeping the
final state (errors discarded, as a caller that only logs them would). -/
def processAll (st : SessionManager) (es : List FSDataEvent) : SessionManager :=
  es.foldl (fun s e => (ProcessFSEvent s e).1) st

/-- The payload sequence sitting in the output channel, oldest first. -/
def payloads (st : SessionManager) : List Bytes :=
  st.eventCh.map FSJsonEvent.payload

/-- Pure mirror of the decode loop: the list of (raw value bytes, end
offset) pairs that successive Decode calls produce from `bufData` starting
at offset `pos`, with the same fuel discipline as emitLoop. -/
def decodeSeq : Nat → Bytes → Nat → List (Bytes × Nat)
  | 0, _, _ => []
  | fuel + 1, bufData, pos =>
    match decodeOne (bufData.drop pos) with
    | none => []
    | some (v, consumed) =>
      if trimSpace v = [] then decodeSeq fuel bufData (pos + consumed)
      else (v, pos + consumed) :: decodeSeq fuel bufData (pos + consumed)

/-- decodeSeq at the fuel and start offset used by tryEmitJsonEvent. -/
def decodeSeqTop (bufData : Bytes) : List (Bytes × Nat) :=
  decodeSeq (bufData.length + 1) bufData 0

/-- Final lastGoodPosition of the loop: the end offset of the last emitted
value, or the default when nothing was emitted. -/
def lastEnd : List (Bytes × Nat) → Nat → Nat
  | [], d => d
  | p :: l, _ => lastEnd l p.2

/-! ## Helper lemmas about the session map -/

theorem lookupSess_insert (m : List (sessionKey × session)) (k : sessionKey) (v : session)
    (k2 : sessionKey) :
    lookupSess (insertSess m k v) k2 = if k2 = k then some v else lookupSess m k2 := by
  induction m with
  | nil =>
    by_cases h : k2 = k
    · subst h; simp [insertSess, lookupSess]
    · simp [insertSess, lookupSess, h, Ne.symm h]
  | cons p t ih =>
    obtain ⟨hk, hv⟩ := p
    by_cases h1 : hk = k <;> by_cases h2 : k2 = k
    · subst h1; subst h2; simp [insertSess, lookupSess]
    · subst h1
      simp [insertSess, lookupSess, h2, Ne.symm h2]
    · subst h2
      simp [insertSess, lookupSess, h1, ih]
    · simp [insertSess, lookupSess, h1, h2, ih]

theorem lookupSess_delete (m : List (sessionKey × session)) (k : sessionKey)
    (k2 : sessionKey) :
    lookupSess (deleteSess m k) k2 = if k2 = k then none else lookupSess m k2 := by
  induction m with
  | nil => by_cases h : k2 = k <;> simp [deleteSess, lookupSess, h]
  | cons p t ih =>
    obtain ⟨hk, hv⟩ := p
    by_cases h1 : hk = k <;> by_cases h2 : k2 = k
    · subst h1; subst h2; simp [deleteSess, lookupSess, ih]
    · subst h1
      simp [deleteSess, lookupSess, ih, h2, Ne.symm h2]
    · subst h2
      simp [deleteSess, lookupSess, h1, ih]
    · simp [deleteSess, lookupSess, h1, h2, ih]

theorem deleteSess_lookup_none (m : List (sessionKey × session)) (k : sessionKey)
    (h : lookupSess m k = none) : deleteSess m k = m := by
  induction m with
  | nil => rfl
  | cons p t ih =>
    obtain ⟨hk, hv⟩ := p
    by_cases h1 : hk = k
    · subst h1; simp [lookupSess] at h
    · simp only [lookupSess, if_neg h1] at h
      simp [deleteSess, h1, ih h]

/-! ## Helper lemmas about the decode-and-emit loop -/

theorem emitLoop_shape (fuel : Nat) (sess : session) (key : sessionKey) (bufData : Bytes) :
    ∀ (st : SessionManager) (pos lastGood : Nat),
      (emitLoop fuel st sess key bufData pos lastGood).1.sessions = st.sessions ∧
      ∃ delta : List FSJsonEvent,
        (emitLoop fuel st sess key bufData pos lastGood).1.eventCh = st.eventCh ++ delta ∧
        ∀ ev ∈ delta, ∃ v : Bytes, trimSpace v ≠ [] ∧ ev = mkJsonEvent sess key v := by
  induction fuel with
  | zero =>
    intro st pos lastGood
    exact ⟨rfl, [], by simp [emitLoop], by simp⟩
  | succ fuel ih =>
    intro st pos lastGood
    simp only [emitLoop]
    cases hdec : decodeOne (bufData.drop pos) with
    | none => exact ⟨rfl, [], by simp, by simp⟩
    | some q =>
      obtain ⟨v, consumed⟩ := q
      dsimp only
      by_cases htrim : trimSpace v = []
      · rw [if_pos htrim]
        exact ih st (pos + consumed) lastGood
      · rw [if_neg htrim]
        simp only [emitJsonEvent]
        by_cases hlen : st.eventCh.length < chanCapacity
        · rw [if_pos hlen]
          dsimp only
          obtain ⟨hsess, delta, hch, hmem⟩ :=
            ih { st with eventCh := st.eventCh ++ [mkJsonEvent sess key v] }
              (pos + consumed) (pos + consumed)
          refine ⟨hsess, mkJsonEvent sess key v :: delta, ?_, ?_⟩
          · rw [hch]; simp
          · intro ev hev
            rcases List.mem_cons.mp hev with h1 | h2
            · exact ⟨v, htrim, h1⟩
            · exact hmem ev h2
        · rw [if_neg hlen]
          exact ⟨rfl, [], by simp, by simp⟩

theorem emitLoop_ok (fuel : Nat) (sess : session) (key : sessionKey) (bufData : Bytes) :
    ∀ (st : SessionManager) (pos lastGood : Nat),
      st.eventCh.length + (decodeSeq fuel bufData pos).length ≤ chanCapacity →
      emitLoop fuel st sess key bufData pos lastGood =
        ({ st with
            eventCh := st.eventCh ++
              (decodeSeq fuel bufData pos).map (fun p => mkJsonEvent sess key p.1) },
         lastEnd (decodeSeq fuel bufData pos) lastGood, none) := by
  induction fuel with
  | zero =>
    intro st pos lastGood _
    simp [emitLoop, decodeSeq, lastEnd]
  | succ fuel ih =>
    intro st pos lastGood hcap
    simp only [decodeSeq] at hcap ⊢
    simp only [emitLoop]
    cases hdec : decodeOne (bufData.drop pos) with
    | none =>
      rw [hdec] at hcap
      simp [lastEnd]
    | some q =>
      obtain ⟨v, consumed⟩ := q
      rw [hdec] at hcap
      dsimp only at hcap ⊢
      by_cases htrim : trimSpace v = []
      · simp only [if_pos htrim] at hcap ⊢
        exact ih st (pos + consumed) lastGood hcap
      · simp only [if_neg htrim] at hcap ⊢
        have hlen : st.eventCh.length < chanCapacity := by
          simp only [List.length_cons] at hcap
          omega
        simp only [emitJsonEvent, if_pos hlen]
        have hcap2 :
            ({ st with eventCh := st.eventCh ++ [mkJsonEvent sess key v] } :
              SessionManager).eventCh.length +
              (decodeSeq fuel bufData (pos + consumed)).length ≤ chanCapacity := by
          simp only [List.length_append, List.length_singleton, List.length_cons,
            List.length_nil] at hcap ⊢
          omega
        rw [ih _ (pos + consumed) (pos + consumed) hcap2]
        simp [lastEnd, List.append_assoc]

theorem decodeOne_slice (s v : Bytes) (consumed : Nat)
    (h : decodeOne s = some (v, consumed)) :
    ∃ i n, v = (s.drop i).take n := by
  simp only [decodeOne] at h
  cases hscan : scanValue (4 * (s.drop (s.takeWhile isJsonWS).length).length + 4)
      (s.drop (s.takeWhile isJsonWS).length) with
  | none => rw [hscan] at h; cases h
  | some n =>
    rw [hscan] at h
    refine ⟨(s.takeWhile isJsonWS).length, n, ?_⟩
    exact ((Prod.mk.injEq _ _ _ _).mp (Option.some.injEq _ _ ▸ h : _)).1.symm

theorem decodeSeq_mem (fuel : Nat) (bufData : Bytes) :
    ∀ (pos : Nat) (p : Bytes × Nat), p ∈ decodeSeq fuel bufData pos →
      (∃ i n, p.1 = (bufData.drop i).take n) ∧ trimSpace p.1 ≠ [] := by
  induction fuel with
  | zero => intro pos p hp; simp [decodeSeq] at hp
  | succ fuel ih =>
    intro pos p hp
    simp only [decodeSeq] at hp
    cases hdec : decodeOne (bufData.drop pos) with
    | none => rw [hdec] at hp; simp at hp
    | some q =>
      obtain ⟨v, consumed⟩ := q
      rw [hdec] at hp
      dsimp only at hp
      by_cases htrim : trimSpace v = []
      · rw [if_pos htrim] at hp
        exact ih (pos + consumed) p hp
      · rw [if_neg htrim] at hp
        rcases List.mem_cons.mp hp with h1 | h2
        · subst h1
          refine ⟨?_, htrim⟩
          obtain ⟨i, n, hv⟩ := decodeOne_slice _ _ _ hdec
          exact ⟨pos + i, n, by rw [hv, List.drop_drop]⟩
        · exact ih (pos + consumed) p h2

theorem tryEmit_lookup_other (st : SessionManager) (sess : session) (key k : sessionKey)
    (hk : k ≠ key) :
    lookupSess (tryEmitJsonEvent st sess key).1.sessions k = lookupSess st.sessions k := by
  simp only [tryEmitJsonEvent]
  cases hh : (trimSpace sess.buf).head? with
  | none => simp [setBuf, lookupSess_insert, hk]
  | some c =>
    dsimp only
    by_cases hc : (c = '{' || c = '[') = true
    · rw [if_pos hc]
      have hsh := (emitLoop_shape ((trimSpace sess.buf).length + 1) sess key
        (trimSpace sess.buf) st 0 0).1
      rcases hloop : emitLoop ((trimSpace sess.buf).length + 1) st sess key
          (trimSpace sess.buf) 0 0 with ⟨st2, lg, err⟩
      rw [hloop] at hsh
      have hsh2 : st2.sessions = st.sessions := hsh
      cases err with
      | some e => rw [hsh2]
      | none =>
        show lookupSess (if 0 < lg then
            (setBuf st2 key sess ((trimSpace sess.buf).drop lg), none)
          else (st2, (none : Option FSError))).1.sessions k = lookupSess st.sessions k
        by_cases hlg : 0 < lg
        · rw [if_pos hlg]
          simp [setBuf, lookupSess_insert, hk, hsh2]
        · rw [if_neg hlg]
          simp [hsh2]
    · rw [if_neg hc]

theorem ProcessFSEvent_lookup_other (st : SessionManager) (e : FSDataEvent) (k : sessionKey)
    (hk : k ≠ eventKey e) :
    lookupSess (ProcessFSEvent st e).1.sessions k = lookupSess st.sessions k := by
  simp only [ProcessFSEvent]
  rw [tryEmit_lookup_other _ _ _ _ hk]
  simp [lookupSess_insert, hk]

theorem tryEmit_empty (st : SessionManager) (sess : session) (key : sessionKey)
    (hh : (trimSpace sess.buf).head? = none) :
    tryEmitJsonEvent st sess key = (setBuf st key sess [], none) := by
  simp only [tryEmitJsonEvent]
  rw [hh]

theorem tryEmit_badStart (st : SessionManager) (sess : session) (key : sessionKey) (c : Char)
    (hh : (trimSpace sess.buf).head? = some c)
    (hc : ¬ (c = '{' || c = '[') = true) :
    tryEmitJsonEvent st sess key = (st, some (FSError.invalidStart c)) := by
  simp only [tryEmitJsonEvent]
  rw [hh]
  dsimp only
  rw [if_neg hc]

theorem tryEmit_ok (st : SessionManager) (sess : session) (key : sessionKey) (c : Char)
    (hh : (trimSpace sess.buf).head? = some c)
    (hc : (c = '{' || c = '[') = true)
    (hcap : st.eventCh.length +
      (decodeSeq ((trimSpace sess.buf).length + 1) (trimSpace sess.buf) 0).length ≤
        chanCapacity) :
    tryEmitJsonEvent st sess key =
      (let pairs := decodeSeq ((trimSpace sess.buf).length + 1) (trimSpace sess.buf) 0
       let st2 : SessionManager :=
         { st with eventCh := st.eventCh ++ pairs.map (fun p => mkJsonEvent sess key p.1) }
       if 0 < lastEnd pairs 0 then
         (setBuf st2 key sess ((trimSpace sess.buf).drop (lastEnd pairs 0)), none)
       else (st2, none)) := by
  simp only [tryEmitJsonEvent]
  rw [hh]
  dsimp only
  rw [if_pos hc]
  rw [emitLoop_ok _ _ _ _ _ _ _ hcap]

theorem tryEmit_cases (st : SessionManager) (sess : session) (key : sessionKey) :
    ∃ delta : List FSJsonEvent,
      (tryEmitJsonEvent st sess key).1.eventCh = st.eventCh ++ delta ∧
      (∀ ev ∈ delta, ∃ v, trimSpace v ≠ [] ∧ ev = mkJsonEvent sess key v) ∧
      ((tryEmitJsonEvent st sess key).1.sessions = st.sessions ∨
       ∃ bb, (tryEmitJsonEvent st sess key).1.sessions =
         insertSess st.sessions key { sess with buf := bb }) := by
  simp only [tryEmitJsonEvent]
  cases hh : (trimSpace sess.buf).head? with
  | none =>
    exact ⟨[], by simp [setBuf], by simp, Or.inr ⟨[], rfl⟩⟩
  | some c =>
    dsimp only
    by_cases hc : (c = '{' || c = '[') = true
    · rw [if_pos hc]
      obtain ⟨hsess, delta, hch, hmem⟩ :=
        emitLoop_shape ((trimSpace sess.buf).length + 1) sess key (trimSpace sess.buf) st 0 0
      rcases hloop : emitLoop ((trimSpace sess.buf).length + 1) st sess key
          (trimSpace sess.buf) 0 0 with ⟨st2, lg, err⟩
      rw [hloop] at hsess hch
      have hsess2 : st2.sessions = st.sessions := hsess
      have hch2 : st2.eventCh = st.eventCh ++ delta := hch
      cases err with
      | some er => exact ⟨delta, hch2, hmem, Or.inl hsess2⟩
      | none =>
        show ∃ delta2 : List FSJsonEvent,
          (if 0 < lg then (setBuf st2 key sess ((trimSpace sess.buf).drop lg), none)
            else (st2, (none : Option FSError))).1.eventCh = st.eventCh ++ delta2 ∧
          (∀ ev ∈ delta2, ∃ v, trimSpace v ≠ [] ∧ ev = mkJsonEvent sess key v) ∧
          ((if 0 < lg then (setBuf st2 key sess ((trimSpace sess.buf).drop lg), none)
              else (st2, (none : Option FSError))).1.sessions = st.sessions ∨
            ∃ bb, (if 0 < lg then (setBuf st2 key sess ((trimSpace sess.buf).drop lg), none)
              else (st2, (none : Option FSError))).1.sessions =
              insertSess st.sessions key { sess with buf := bb })
        by_cases hlg : 0 < lg
        · rw [if_pos hlg]
          exact ⟨delta, by simpa [setBuf] using hch2, hmem,
            Or.inr ⟨(trimSpace sess.buf).drop lg, by simp [setBuf, hsess2]⟩⟩
        · rw [if_neg hlg]
          exact ⟨delta, hch2, hmem, Or.inl hsess2⟩
    · rw [if_neg hc]
      exact ⟨[], by simp, by simp, Or.inl rfl⟩

/-! ## Claim theorems -/

/-- C3, counterexample: a raw event with captured length zero delivered to a
fresh manager does create a session for its key (with an empty buffer),
refuting the claim that no session is created when none exists. -/
theorem C3_counterexample :
    lookupSess
      (ProcessFSEvent NewSessionManager
        { eventType := EventType.fsRead, pid := 5, comm := [7], filePtr := 9,
          buffer := [] }).1.sessions
      { pid := 5, filePtr := 9, origEventType := EventType.fsRead } =
      some { pid := 5, comm := [7], filePtr := 9, buf := [] } := by decide

/-- C3, amended: for every raw event with captured length zero whose key has
no existing session, ProcessFSEvent creates a session with an empty buffer
for that key (rather than creating none), emits no output event, returns no
error, and leaves every other session unchanged. -/
theorem C3_zero_length_amended (st : SessionManager) (e : FSDataEvent)
    (hb : e.buffer = [])
    (hs : lookupSess st.sessions (eventKey e) = none) :
    (ProcessFSEvent st e).2 = none ∧
    (ProcessFSEvent st e).1.eventCh = st.eventCh ∧
    lookupSess (ProcessFSEvent st e).1.sessions (eventKey e) =
      some { pid := e.pid, comm := e.comm, filePtr := e.filePtr, buf := [] } ∧
    ∀ k, k ≠ eventKey e →
      lookupSess (ProcessFSEvent st e).1.sessions k = lookupSess st.sessions k := by
  have hsess : sessAfterAppend st e =
      { pid := e.pid, comm := e.comm, filePtr := e.filePtr, buf := [] } := by
    simp [sessAfterAppend, sessBefore, hs, hb]
  have hh : (trimSpace (sessAfterAppend st e).buf).head? = none := by
    rw [hsess]; rfl
  simp only [ProcessFSEvent]
  rw [tryEmit_empty _ _ _ hh]
  refine ⟨rfl, rfl, ?_, ?_⟩
  · simp [setBuf, lookupSess_insert, hsess]
  · intro k hk
    simp [setBuf, lookupSess_insert, hk]

/-- C3, witness for the amended theorem at a concrete zero-length event. -/
theorem C3_zero_length_amended_witness :
    (({ eventType := EventType.fsWrite, pid := 3, comm := [1], filePtr := 4,
        buffer := [] } : FSDataEvent).buffer = ([] : Bytes)) ∧
    lookupSess NewSessionManager.sessions
      (eventKey { eventType := EventType.fsWrite, pid := 3, comm := [1], filePtr := 4,
                  buffer := [] }) = none ∧
    (ProcessFSEvent NewSessionManager
      { eventType := EventType.fsWrite, pid := 3, comm := [1], filePtr := 4,
        buffer := [] }).2 = none :=
  ⟨rfl, rfl,
    (C3_zero_length_amended NewSessionManager
      { eventType := EventType.fsWrite, pid := 3, comm := [1], filePtr := 4, buffer := [] }
      rfl rfl).1⟩

/-- C6: when the accumulated buffer after the append trims to something
non-empty whose first byte is neither a brace nor a bracket, ProcessFSEvent
returns the invalid-start framing error, the session keeps exactly the
appended buffer (nothing discarded, no resynchronization), no event is
emitted, and all other sessions are untouched. -/
theorem C6_framing_violation (st : SessionManager) (e : FSDataEvent) (c : Char)
    (hh : (trimSpace (sessAfterAppend st e).buf).head? = some c)
    (hc1 : c ≠ '{') (hc2 : c ≠ '[') :
    (ProcessFSEvent st e).2 = some (FSError.invalidStart c) ∧
    lookupSess (ProcessFSEvent st e).1.sessions (eventKey e) = some (sessAfterAppend st e) ∧
    (ProcessFSEvent st e).1.eventCh = st.eventCh ∧
    ∀ k, k ≠ eventKey e →
      lookupSess (ProcessFSEvent st e).1.sessions k = lookupSess st.sessions k := by
  have hc : ¬ (c = '{' || c = '[') = true := by simp [hc1, hc2]
  simp only [ProcessFSEvent]
  rw [tryEmit_badStart _ _ _ _ hh hc]
  refine ⟨rfl, ?_, rfl, ?_⟩
  · simp [lookupSess_insert]
  · intro k hk
    simp [lookupSess_insert, hk]

/-- C6, witness: a fresh manager receiving the single byte x. -/
theorem C6_framing_violation_witness :
    ((trimSpace (sessAfterAppend NewSessionManager
      { eventType := EventType.fsRead, pid := 1, comm := [], filePtr := 2,
        buffer := ['x'] }).buf).head? = some 'x') ∧
    (ProcessFSEvent NewSessionManager
      { eventType := EventType.fsRead, pid := 1, comm := [], filePtr := 2,
        buffer := ['x'] }).2 = some (FSError.invalidStart 'x') :=
  ⟨by decide,
    (C6_framing_violation NewSessionManager
      { eventType := EventType.fsRead, pid := 1, comm := [], filePtr := 2, buffer := ['x'] }
      'x' (by decide) (by decide) (by decide)).1⟩

/-- C7, counterexample: the buffer append (bytes.Buffer.Write, which never
fails) succeeds for the single byte x, yet ProcessFSEvent returns the
framing error — so errors are not confined to append failures. -/
theorem C7_counterexample :
    (ProcessFSEvent NewSessionManager
      { eventType := EventType.fsRead, pid := 1, comm := [], filePtr := 2,
        buffer := ['x'] }).2 = some (FSError.invalidStart 'x') := by decide

/-- C7, amended: the underlying append never fails; ProcessFSEvent returns
an error only on a framing violation or on output-queue saturation, so
whenever the trimmed buffer after the append is empty or starts with a
brace or bracket and the queue has room for every decoded value, no error
is returned. -/
theorem C7_no_error_amended (st : SessionManager) (e : FSDataEvent)
    (hok : (trimSpace (sessAfterAppend st e).buf).head? = none ∨
           (trimSpace (sessAfterAppend st e).buf).head? = some '{' ∨
           (trimSpace (sessAfterAppend st e).buf).head? = some '[')
    (hcap : st.eventCh.length +
      (decodeSeq ((trimSpace (sessAfterAppend st e).buf).length + 1)
        (trimSpace (sessAfterAppend st e).buf) 0).length ≤ chanCapacity) :
    (ProcessFSEvent st e).2 = none := by
  simp only [ProcessFSEvent]
  rcases hok with hh | hh | hh
  · rw [tryEmit_empty _ _ _ hh]
  · rw [tryEmit_ok
      { st with sessions := insertSess st.sessions (eventKey e) (sessAfterAppend st e) }
      (sessAfterAppend st e) (eventKey e) '{' hh (by decide) hcap]
    dsimp only
    split <;> rfl
  · rw [tryEmit_ok
      { st with sessions := insertSess st.sessions (eventKey e) (sessAfterAppend st e) }
      (sessAfterAppend st e) (eventKey e) '[' hh (by decide) hcap]
    dsimp only
    split <;> rfl

/-- C7, witness for the amended theorem: a complete object in one event. -/
theorem C7_no_error_amended_witness :
    ((trimSpace (sessAfterAppend NewSessionManager
        { eventType := EventType.fsRead, pid := 1, comm := [], filePtr := 2,
          buffer := ['{', '"', 'a', '"', ':', '1', '}'] }).buf).head? = some '{') ∧
    (ProcessFSEvent NewSessionManager
      { eventType := EventType.fsRead, pid := 1, comm := [], filePtr := 2,
        buffer := ['{', '"', 'a', '"', ':', '1', '}'] }).2 = none :=
  ⟨by decide,
    C7_no_error_amended NewSessionManager
      { eventType := EventType.fsRead, pid := 1, comm := [], filePtr := 2,
        buffer := ['{', '"', 'a', '"', ':', '1', '}'] }
      (Or.inr (Or.inl (by decide))) (by decide)⟩

/-- C4: a single event on a fresh key whose trimmed bytes start with a brace
or bracket and decode as a sequence of complete JSON values consuming the
whole trimmed buffer emits exactly those values, in arrival order, appended
to the queue (given room for all of them); each payload is a contiguous
byte slice of the trimmed buffer with nonempty trimmed content (never
re-serialized), no error is returned, and the session buffer is left
empty. -/
theorem C4_batch_emission (st : SessionManager) (e : FSDataEvent) (c : Char)
    (hs : lookupSess st.sessions (eventKey e) = none)
    (hh : (trimSpace e.buffer).head? = some c)
    (hc : c = '{' ∨ c = '[')
    (hcap : st.eventCh.length + (decodeSeqTop (trimSpace e.buffer)).length ≤ chanCapacity)
    (hall : lastEnd (decodeSeqTop (trimSpace e.buffer)) 0 = (trimSpace e.buffer).length) :
    (ProcessFSEvent st e).2 = none ∧
    (ProcessFSEvent st e).1.eventCh =
      st.eventCh ++ (decodeSeqTop (trimSpace e.buffer)).map
        (fun p => mkJsonEvent
          { pid := e.pid, comm := e.comm, filePtr := e.filePtr, buf := e.buffer }
          (eventKey e) p.1) ∧
    lookupSess (ProcessFSEvent st e).1.sessions (eventKey e) =
      some { pid := e.pid, comm := e.comm, filePtr := e.filePtr, buf := [] } ∧
    ∀ p ∈ decodeSeqTop (trimSpace e.buffer),
      (∃ i n, p.1 = ((trimSpace e.buffer).drop i).take n) ∧ trimSpace p.1 ≠ [] := by
  have hsess : sessAfterAppend st e =
      { pid := e.pid, comm := e.comm, filePtr := e.filePtr, buf := e.buffer } := by
    simp [sessAfterAppend, sessBefore, hs]
  have hlen : 0 < (trimSpace e.buffer).length := by
    cases hb : trimSpace e.buffer with
    | nil => rw [hb] at hh; cases hh
    | cons a l => simp
  have hcbool : (c = '{' || c = '[') = true := by
    rcases hc with h | h <;> simp [h]
  simp only [decodeSeqTop] at hcap hall ⊢
  simp only [ProcessFSEvent]
  rw [hsess]
  rw [tryEmit_ok
    { st with sessions := (insertSess st.sessions (eventKey e)
        { pid := e.pid, comm := e.comm, filePtr := e.filePtr, buf := e.buffer }) }
    { pid := e.pid, comm := e.comm, filePtr := e.filePtr, buf := e.buffer }
    (eventKey e) c hh hcbool hcap]
  dsimp only
  rw [hall, if_pos hlen, List.drop_length]
  refine ⟨rfl, by simp [setBuf], ?_, ?_⟩
  · simp [setBuf, lookupSess_insert]
  · intro p hp
    exact decodeSeq_mem _ _ _ p hp

/-- C4, witness: two complete objects in one event on a fresh manager. -/
theorem C4_batch_emission_witness :
    lookupSess NewSessionManager.sessions
      (eventKey { eventType := EventType.fsRead, pid := 1, comm := [3], filePtr := 2,
                  buffer := ['{', '"', 'i', 'd', '"', ':', '1', '}', ' ',
                             '{', '"', 'i', 'd', '"', ':', '2', '}'] }) = none ∧
    (ProcessFSEvent NewSessionManager
      { eventType := EventType.fsRead, pid := 1, comm := [3], filePtr := 2,
        buffer := ['{', '"', 'i', 'd', '"', ':', '1', '}', ' ',
                   '{', '"', 'i', 'd', '"', ':', '2', '}'] }).2 = none :=
  ⟨rfl,
    (C4_batch_emission NewSessionManager
      { eventType := EventType.fsRead, pid := 1, comm := [3], filePtr := 2,
        buffer := ['{', '"', 'i', 'd', '"', ':', '1', '}', ' ',
                   '{', '"', 'i', 'd', '"', ':', '2', '}'] }
      '{' rfl (by decide) (Or.inl rfl) (by decide) (by decide)).1⟩

/-- C5, counterexample: with the queue full, a completing value is dropped
with an error, but its bytes stay in the session buffer, and once the
consumer drains the queue a later event for the same key re-emits the very
value that was dropped — refuting "not retried on a later event". -/
theorem C5_counterexample :
    (let st0 : SessionManager :=
      { sessions := [],
        eventCh := List.replicate 100
          { eventType := EventType.fsJsonRead, pid := 0, comm := [], filePtr := 0,
            payload := ['0'] } }
     let e1 : FSDataEvent :=
      { eventType := EventType.fsRead, pid := 1, comm := [], filePtr := 2,
        buffer := ['{', '"', 'a', '"', ':', '1', '}'] }
     let r1 := ProcessFSEvent st0 e1
     let drained : SessionManager := { r1.1 with eventCh := [] }
     let e2 : FSDataEvent :=
      { eventType := EventType.fsRead, pid := 1, comm := [], filePtr := 2, buffer := [' '] }
     let r2 := ProcessFSEvent drained e2
     r1.2 = some FSError.channelFull ∧
       r1.1.eventCh.length = 100 ∧
       payloads r2.1 = [['{', '"', 'a', '"', ':', '1', '}']]) := by decide

/-- C5, amended: when the output queue is full at emit time the send does
not enqueue anything (the state is unchanged) and the channel-full error is
surfaced, and no ProcessFSEvent call ever touches the state of a session
other than the one for its own key; however the completed value's bytes
remain in the processed session's buffer, so it can be re-emitted by a
later event (see the counterexample). -/
theorem C5_saturation_amended (st : SessionManager) (sess : session) (key : sessionKey)
    (payload : Bytes) (hfull : chanCapacity ≤ st.eventCh.length) :
    emitJsonEvent st sess key payload = (st, some FSError.channelFull) ∧
    ∀ (st2 : SessionManager) (e : FSDataEvent) (k : sessionKey), k ≠ eventKey e →
      lookupSess (ProcessFSEvent st2 e).1.sessions k = lookupSess st2.sessions k := by
  constructor
  · simp [emitJsonEvent, Nat.not_lt.mpr hfull]
  · intro st2 e k hk
    exact ProcessFSEvent_lookup_other st2 e k hk

/-- C5, witness: queue of 100 entries, concrete emit attempt. -/
theorem C5_saturation_amended_witness :
    emitJsonEvent
      { sessions := [],
        eventCh := List.replicate 100
          { eventType := EventType.fsJsonRead, pid := 0, comm := [], filePtr := 0,
            payload := ['0'] } }
      { pid := 1, comm := [], filePtr := 2, buf := [] }
      { pid := 1, filePtr := 2, origEventType := EventType.fsRead }
      ['{', '}'] =
      ({ sessions := [],
         eventCh := List.replicate 100
          { eventType := EventType.fsJsonRead, pid := 0, comm := [], filePtr := 0,
            payload := ['0'] } }, some FSError.channelFull) :=
  (C5_saturation_amended
    { sessions := [],
      eventCh := List.replicate 100
        { eventType := EventType.fsJsonRead, pid := 0, comm := [], filePtr := 0,
          payload := ['0'] } }
    { pid := 1, comm := [], filePtr := 2, buf := [] }
    { pid := 1, filePtr := 2, origEventType := EventType.fsRead }
    ['{', '}'] (by decide)).1

/-- C9: every output event appended by a ProcessFSEvent call carries the
type derived from the key's direction (write maps to FSJsonWrite, anything
else to FSJsonRead) and the pid, command-name snapshot and file pointer of
the session as it existed before the call (the snapshot captured at session
creation — a differing comm on the incoming event is ignored for an
existing session), and the stored session keeps those same identity fields
after the call. -/
theorem C9_output_fields (st : SessionManager) (e : FSDataEvent) :
    (∀ ev ∈ (ProcessFSEvent st e).1.eventCh.drop st.eventCh.length,
        ev.eventType = (if e.eventType = EventType.fsWrite then EventType.fsJsonWrite
          else EventType.fsJsonRead) ∧
        ev.pid = (sessBefore st e).pid ∧ ev.comm = (sessBefore st e).comm ∧
        ev.filePtr = (sessBefore st e).filePtr) ∧
    ∀ s1, lookupSess (ProcessFSEvent st e).1.sessions (eventKey e) = some s1 →
      s1.pid = (sessBefore st e).pid ∧ s1.comm = (sessBefore st e).comm ∧
      s1.filePtr = (sessBefore st e).filePtr := by
  simp only [ProcessFSEvent]
  obtain ⟨delta, hch, hmem, hsessions⟩ :=
    tryEmit_cases
      { st with sessions := insertSess st.sessions (eventKey e) (sessAfterAppend st e) }
      (sessAfterAppend st e) (eventKey e)
  constructor
  · intro ev hev
    rw [hch] at hev
    rw [List.drop_left] at hev
    obtain ⟨v, hv, hev2⟩ := hmem ev hev
    subst hev2
    exact ⟨rfl, rfl, rfl, rfl⟩
  · intro s1 hs1
    rcases hsessions with h | ⟨bb, h⟩
    · rw [h] at hs1
      rw [lookupSess_insert] at hs1
      simp only [if_pos rfl, if_true, eq_self_iff_true, Option.some.injEq] at hs1
      subst hs1
      exact ⟨rfl, rfl, rfl⟩
    · rw [h] at hs1
      rw [lookupSess_insert] at hs1
      simp only [if_pos rfl, if_true, eq_self_iff_true, Option.some.injEq] at hs1
      subst hs1
      exact ⟨rfl, rfl, rfl⟩

/-- C9, witness: an existing write-direction session with comm snapshot
[5, 5] processes an event carrying comm [9, 9]; the emitted event has type
FSJsonWrite and still carries comm [5, 5]. -/
theorem C9_output_fields_witness :
    ((ProcessFSEvent
      { sessions := [({ pid := 1, filePtr := 2, origEventType := EventType.fsWrite },
                      { pid := 1, comm := [5, 5], filePtr := 2, buf := [] })],
        eventCh := [] }
      { eventType := EventType.fsWrite, pid := 1, comm := [9, 9], filePtr := 2,
        buffer := ['{', '}'] }).1.eventCh.drop 0 =
      [{ eventType := EventType.fsJsonWrite, pid := 1, comm := [5, 5], filePtr := 2,
         payload := ['{', '}'] }]) ∧
    ({ eventType := EventType.fsJsonWrite, pid := 1, comm := [5, 5], filePtr := 2,
       payload := ['{', '}'] } : FSJsonEvent).comm = [5, 5] :=
  ⟨by decide,
    ((C9_output_fields
      { sessions := [({ pid := 1, filePtr := 2, origEventType := EventType.fsWrite },
                      { pid := 1, comm := [5, 5], filePtr := 2, buf := [] })],
        eventCh := [] }
      { eventType := EventType.fsWrite, pid := 1, comm := [9, 9], filePtr := 2,
        buffer := ['{', '}'] }).1
      { eventType := EventType.fsJsonWrite, pid := 1, comm := [5, 5], filePtr := 2,
        payload := ['{', '}'] }
      (by decide)).2.2.1⟩

/-- C10: the brace-or-bracket check constrains only the head of the trimmed
buffer — in the single event consisting of an empty object followed by the
bare number 42 both values are emitted, the second payload starting with
neither a brace nor a bracket — and every payload any call leaves in the
queue has nonempty (trimmed) content, so no emitted payload is ever
empty. -/
theorem C10_tail_values :
    (payloads (ProcessFSEvent NewSessionManager
        { eventType := EventType.fsRead, pid := 1, comm := [], filePtr := 2,
          buffer := ['{', '}', ' ', '4', '2'] }).1 =
      [['{', '}'], ['4', '2']] ∧
      (['4', '2'] : Bytes).head? ≠ some '{' ∧ (['4', '2'] : Bytes).head? ≠ some '[') ∧
    ∀ (st : SessionManager) (e : FSDataEvent),
      (∀ ev ∈ st.eventCh, trimSpace ev.payload ≠ [] ∧ ev.payload ≠ []) →
      ∀ ev ∈ (ProcessFSEvent st e).1.eventCh,
        trimSpace ev.payload ≠ [] ∧ ev.payload ≠ [] := by
  refine ⟨⟨by decide, by decide, by decide⟩, ?_⟩
  intro st e hst ev hev
  simp only [ProcessFSEvent] at hev
  obtain ⟨delta, hch, hmem, -⟩ :=
    tryEmit_cases
      { st with sessions := insertSess st.sessions (eventKey e) (sessAfterAppend st e) }
      (sessAfterAppend st e) (eventKey e)
  rw [hch] at hev
  rcases List.mem_append.mp hev with h | h
  · exact hst ev h
  · obtain ⟨v, hv, he2⟩ := hmem ev h
    subst he2
    refine ⟨hv, ?_⟩
    intro hnil
    apply hv
    show trimSpace ((mkJsonEvent (sessAfterAppend st e) (eventKey e) v).payload) = []
    rw [hnil]
    rfl

/-- C10, witness: the general nonempty-payload invariant applied to the
concrete event above, for the emitted payload 42. -/
theorem C10_tail_values_witness :
    trimSpace (['4', '2'] : Bytes) ≠ [] ∧ (['4', '2'] : Bytes) ≠ [] :=
  (C10_tail_values).2 NewSessionManager
    { eventType := EventType.fsRead, pid := 1, comm := [], filePtr := 2,
      buffer := ['{', '}', ' ', '4', '2'] }
    (by decide)
    { eventType := EventType.fsJsonRead, pid := 1, comm := [], filePtr := 2,
      payload := ['4', '2'] }
    (by decide)

/-- C8: CleanupSession removes both the read- and write-direction sessions
for the pid/file-pointer pair, is idempotent, touches no other key, and a
subsequent event for either direction of that pair is processed against a
freshly created session whose buffer holds exactly the event's bytes (no
residual content). -/
theorem C8_cleanup (st : SessionManager) (pid filePtr : Nat) (e : FSDataEvent)
    (hpid : e.pid = pid) (hptr : e.filePtr = filePtr)
    (hdir : e.eventType = EventType.fsRead ∨ e.eventType = EventType.fsWrite) :
    lookupSess (CleanupSession st pid filePtr).sessions
      { pid := pid, filePtr := filePtr, origEventType := EventType.fsRead } = none ∧
    lookupSess (CleanupSession st pid filePtr).sessions
      { pid := pid, filePtr := filePtr, origEventType := EventType.fsWrite } = none ∧
    CleanupSession (CleanupSession st pid filePtr) pid filePtr =
      CleanupSession st pid filePtr ∧
    (∀ k : sessionKey,
      k ≠ { pid := pid, filePtr := filePtr, origEventType := EventType.fsRead } →
      k ≠ { pid := pid, filePtr := filePtr, origEventType := EventType.fsWrite } →
      lookupSess (CleanupSession st pid filePtr).sessions k = lookupSess st.sessions k) ∧
    sessAfterAppend (CleanupSession st pid filePtr) e =
      { pid := e.pid, comm := e.comm, filePtr := e.filePtr, buf := e.buffer } := by
  have hRW : ({ pid := pid, filePtr := filePtr, origEventType := EventType.fsRead } :
      sessionKey) ≠ { pid := pid, filePtr := filePtr, origEventType := EventType.fsWrite } := by
    simp
  have h1 : lookupSess (CleanupSession st pid filePtr).sessions
      { pid := pid, filePtr := filePtr, origEventType := EventType.fsRead } = none := by
    simp [CleanupSession, lookupSess_delete, hRW]
  have h2 : lookupSess (CleanupSession st pid filePtr).sessions
      { pid := pid, filePtr := filePtr, origEventType := EventType.fsWrite } = none := by
    simp [CleanupSession, lookupSess_delete]
  have h3 : CleanupSession (CleanupSession st pid filePtr) pid filePtr =
      CleanupSession st pid filePtr := by
    have hs1 : deleteSess (CleanupSession st pid filePtr).sessions
        { pid := pid, filePtr := filePtr, origEventType := EventType.fsRead } =
        (CleanupSession st pid filePtr).sessions := deleteSess_lookup_none _ _ h1
    have hs2 : deleteSess (CleanupSession st pid filePtr).sessions
        { pid := pid, filePtr := filePtr, origEventType := EventType.fsWrite } =
        (CleanupSession st pid filePtr).sessions := deleteSess_lookup_none _ _ h2
    simp only [CleanupSession] at hs1 hs2 ⊢
    rw [hs1, hs2]
  have hkey : eventKey e =
      { pid := pid, filePtr := filePtr, origEventType := e.eventType } := by
    simp [eventKey, hpid, hptr]
  have hlook : lookupSess (CleanupSession st pid filePtr).sessions (eventKey e) = none := by
    rcases hdir with h | h
    · rw [hkey, h]; exact h1
    · rw [hkey, h]; exact h2
  refine ⟨h1, h2, h3, ?_, ?_⟩
  · intro k hk1 hk2
    simp [CleanupSession, lookupSess_delete, hk1, hk2]
  · simp [sessAfterAppend, sessBefore, hlook]

/-- C8, witness: cleaning up a manager holding a read-direction session for
the pair (1, 2) leaves neither direction present and is idempotent. -/
theorem C8_cleanup_witness :
    lookupSess (CleanupSession
      { sessions := [({ pid := 1, filePtr := 2, origEventType := EventType.fsRead },
                      { pid := 1, comm := [4], filePtr := 2, buf := ['{'] })],
        eventCh := [] } 1 2).sessions
      { pid := 1, filePtr := 2, origEventType := EventType.fsRead } = none ∧
    CleanupSession (CleanupSession
      { sessions := [({ pid := 1, filePtr := 2, origEventType := EventType.fsRead },
                      { pid := 1, comm := [4], filePtr := 2, buf := ['{'] })],
        eventCh := [] } 1 2) 1 2 =
      CleanupSession
      { sessions := [({ pid := 1, filePtr := 2, origEventType := EventType.fsRead },
                      { pid := 1, comm := [4], filePtr := 2, buf := ['{'] })],
        eventCh := [] } 1 2 :=
  ⟨(C8_cleanup
      { sessions := [({ pid := 1, filePtr := 2, origEventType := EventType.fsRead },
                      { pid := 1, comm := [4], filePtr := 2, buf := ['{'] })],
        eventCh := [] } 1 2
      { eventType := EventType.fsRead, pid := 1, comm := [], filePtr := 2, buffer := [] }
      rfl rfl (Or.inl rfl)).1,
   (C8_cleanup
      { sessions := [({ pid := 1, filePtr := 2, origEventType := EventType.fsRead },
                      { pid := 1, comm := [4], filePtr := 2, buf := ['{'] })],
        eventCh := [] } 1 2
      { eventType := EventType.fsRead, pid := 1, comm := [], filePtr := 2, buffer := [] }
      rfl rfl (Or.inl rfl)).2.2.1⟩

/-- C1, divergence of the code from chunk-boundary invariance: the byte
sequence consisting of an empty object, a space, and the array containing
one and an inner space, delivered whole, emits the array payload with its
internal trailing space; delivered as two chunks split inside the array, the
trailing space of the first chunk is dropped (the remainder kept after a
successful emit is a suffix of the trimmed data), so the second payload
differs.  The chunks concatenate to the whole sequence, yet the emitted
payload sequences differ. -/
theorem C1_chunk_divergence :
    ((['{', '}', ' ', '[', '1', ' '] ++ [']'] : Bytes) =
      ['{', '}', ' ', '[', '1', ' ', ']']) ∧
    payloads (processAll NewSessionManager
      [{ eventType := EventType.fsRead, pid := 1, comm := [], filePtr := 2,
         buffer := ['{', '}', ' ', '[', '1', ' ', ']'] }]) =
      [['{', '}'], ['[', '1', ' ', ']']] ∧
    payloads (processAll NewSessionManager
      [{ eventType := EventType.fsRead, pid := 1, comm := [], filePtr := 2,
         buffer := ['{', '}', ' ', '[', '1', ' '] },
       { eventType := EventType.fsRead, pid := 1, comm := [], filePtr := 2,
         buffer := [']'] }]) =
      [['{', '}'], ['[', '1', ']']] ∧
    (['[', '1', ' ', ']'] : Bytes) ≠ ['[', '1', ']'] := by decide

/-- C2, divergence of the code from the no-retained-emitted-bytes
invariant: with 99 events already queued, an event carrying two objects
emits the first (filling the queue), fails to emit the second, and returns
the channel-full error through the early return that skips the buffer
update — so the session buffer still contains the bytes of the first
object even though that object now sits in the queue. -/
theorem C2_buffer_retains_emitted :
    (let st0 : SessionManager :=
      { sessions := [],
        eventCh := List.replicate 99
          { eventType := EventType.fsJsonRead, pid := 0, comm := [], filePtr := 0,
            payload := ['0'] } }
     let e1 : FSDataEvent :=
      { eventType := EventType.fsRead, pid := 1, comm := [], filePtr := 2,
        buffer := ['{', '"', 'a', '"', ':', '1', '}', ' ',
                   '{', '"', 'b', '"', ':', '2', '}'] }
     let r := ProcessFSEvent st0 e1
     r.2 = some FSError.channelFull ∧
       r.1.eventCh.length = 100 ∧
       (r.1.eventCh.drop 99).map FSJsonEvent.payload =
         [['{', '"', 'a', '"', ':', '1', '}']] ∧
       lookupSess r.1.sessions { pid := 1, filePtr := 2, origEventType := EventType.fsRead } =
         some { pid := 1, comm := [], filePtr := 2,
                buf := ['{', '"', 'a', '"', ':', '1', '}', ' ',
                        '{', '"', 'b', '"', ':', '2', '}'] }) := by decide
